import Mathlib

/-!
Verification of the chunking, indexing and streaming engine of
`src/data_generators.py` (class `DataGenerator`).

The Python code is shallowly embedded: the feature table is a `List ℚ`
of per-frame scalar features (the rank-1 path of the source), chunk
descriptors are triples `(begin, end, label)`, numpy's in-place shuffles
are modelled by an explicit shuffle function threaded through the state,
and fallible numpy operations (a zero-length slice reaching the
`input_frames_number // len(x)` division raises `ZeroDivisionError`)
return `Option` / `Except`.
-/

namespace DataGen

/-- Number of elements of `np.arange(b, b + len, step)`, i.e. the ceiling
of `len / step` (for `step > 0`). -/
def ceilSteps (len step : Nat) : Nat := (len + step - 1) / step

/-- Embedding of `np.arange(b, stop, step)` for a positive integer step:
the values `b + i * step` strictly below `stop`. -/
def arange (b stop step : Nat) : List Nat :=
  (List.range (ceilSteps (stop - b) step)).map (fun i => b + i * step)

theorem lt_ceilSteps_of_mul_lt {j len step : Nat} (hstep : 0 < step)
    (h : j * step < len) : j < ceilSteps len step := by
  rw [ceilSteps, Nat.lt_iff_add_one_le, Nat.le_div_iff_mul_le hstep,
    Nat.add_mul, Nat.one_mul]
  omega

theorem mul_lt_of_lt_ceilSteps {j len step : Nat} (hstep : 0 < step)
    (h : j < ceilSteps len step) : j * step < len := by
  rcases Nat.eq_zero_or_pos len with hlen | hlen
  · subst hlen
    have : ceilSteps 0 step = 0 := by
      simp [ceilSteps]
      exact Nat.div_eq_of_lt (by omega)
    omega
  · have h1 : (j + 1) * step ≤ ceilSteps len step * step :=
      Nat.mul_le_mul_right step h
    have h2 : ceilSteps len step * step ≤ len + step - 1 := by
      rw [ceilSteps]
      exact Nat.div_mul_le_self _ _
    have h3 : (j + 1) * step = j * step + step := by ring
    omega

theorem le_ceilSteps_mul {len step : Nat} (hstep : 0 < step) :
    len ≤ ceilSteps len step * step := by
  have h1 : step * ((len + step - 1) / step) + (len + step - 1) % step
      = len + step - 1 := Nat.div_add_mod _ _
  have h2 : (len + step - 1) % step < step := Nat.mod_lt _ hstep
  rw [ceilSteps, Nat.mul_comm]
  omega

theorem mem_arange {v b stop step : Nat} (hstep : 0 < step) :
    v ∈ arange b stop step ↔ ∃ i, v = b + i * step ∧ v < stop := by
  simp only [arange, List.mem_map, List.mem_range]
  constructor
  · rintro ⟨i, hi, rfl⟩
    have := mul_lt_of_lt_ceilSteps hstep hi
    exact ⟨i, rfl, by omega⟩
  · rintro ⟨i, rfl, hv⟩
    refine ⟨i, ?_, rfl⟩
    exact lt_ceilSteps_of_mul_lt hstep (by omega)

/-- Embedding of `DataGenerator.__generate_chunks` (lines 105-120).
`L` is `self.input_frames_number`. For a range not longer than `L` a
single descriptor is returned; otherwise one descriptor per start in
`np.arange(begin, end - L, L // 2)`. -/
def generate_chunks {α : Type} (L b e : Nat) (lbl : α) : List (Nat × Nat × α) :=
  if e - b ≤ L then [(b, e, lbl)]
  else (arange b (e - L) (L / 2)).map (fun s => (s, s + L, lbl))

theorem generate_chunks_mem_iff {α : Type} {L b e : Nat} {lbl : α}
    (hL : 2 ≤ L) (h : L < e - b) (d : Nat × Nat × α) :
    d ∈ generate_chunks L b e lbl ↔
      ∃ i, b + i * (L / 2) + L < e ∧
        d = (b + i * (L / 2), b + i * (L / 2) + L, lbl) := by
  have hstep : 0 < L / 2 := by
    rw [Nat.lt_iff_add_one_le, Nat.le_div_iff_mul_le (by omega)]
    omega
  rw [generate_chunks, if_neg (by omega)]
  simp only [List.mem_map]
  constructor
  · rintro ⟨s, hs, rfl⟩
    rw [mem_arange hstep] at hs
    obtain ⟨i, rfl, hlt⟩ := hs
    exact ⟨i, by omega, rfl⟩
  · rintro ⟨i, hlt, rfl⟩
    refine ⟨b + i * (L / 2), ?_, rfl⟩
    rw [mem_arange hstep]
    exact ⟨i, rfl, by omega⟩

/-- Claim C1 (corrected): the claim asserts that for `L = 4` over the range
`[0, 10)` segmentation returns the four descriptors `(0,4), (2,6), (4,8),
(6,10)`, i.e. that a start equal to `end - L` is generated. The code uses
`np.arange(begin, end - L, L // 2)`, whose stop bound is exclusive: the
returned descriptors are exactly `(0,4), (2,6), (4,8)` and `(6,10)` is
absent. -/
theorem C1_counterexample :
    generate_chunks 4 0 10 (0 : Nat) = [(0, 4, 0), (2, 6, 0), (4, 8, 0)] ∧
      (6, 10, (0 : Nat)) ∉ generate_chunks 4 0 10 (0 : Nat) := by
  constructor
  · rfl
  · decide

/-- Claim C1 (amended): for `L ≥ 2` and `end - begin > L`, segmentation
returns the descriptors `(s, s + L, label)` exactly for the starts
`s = begin + i * (L // 2)` that lie strictly below the bound `end - L`
(exclusive: a start equal to `end - L` is not generated). -/
theorem C1_segmentation_starts {α : Type} (L b e : Nat) (lbl : α)
    (hL : 2 ≤ L) (h : L < e - b) :
    ∀ d : Nat × Nat × α, d ∈ generate_chunks L b e lbl ↔
      ∃ i, b + i * (L / 2) + L < e ∧
        d = (b + i * (L / 2), b + i * (L / 2) + L, lbl) :=
  fun d => generate_chunks_mem_iff hL h d

/-- Witness for C1_segmentation_starts at `L = 4`, range `[0, 10)`. -/
theorem C1_segmentation_starts_witness :
    (2 ≤ 4 ∧ 4 < 10 - 0) ∧
      ((2, 6, (0 : Nat)) ∈ generate_chunks 4 0 10 (0 : Nat) ↔
        ∃ i, 0 + i * (4 / 2) + 4 < 10 ∧
          ((2, 6, (0 : Nat)) = (0 + i * (4 / 2), 0 + i * (4 / 2) + 4, 0))) :=
  ⟨⟨by decide, by decide⟩,
    C1_segmentation_starts 4 0 10 0 (by decide) (by decide) (2, 6, 0)⟩

/-- Claim C9 (confirmed): for every `(begin, end, label)` with
`end - begin ≤ L`, segmentation returns exactly the one-element list
containing the single descriptor `(begin, end, label)`. -/
theorem C9_short_recording_single_chunk {α : Type} (L b e : Nat) (lbl : α)
    (h : e - b ≤ L) : generate_chunks L b e lbl = [(b, e, lbl)] := by
  rw [generate_chunks, if_pos h]

/-- Witness for C9_short_recording_single_chunk at range `[0, 3)`, `L = 4`. -/
theorem C9_short_recording_single_chunk_witness :
    3 - 0 ≤ 4 ∧ generate_chunks 4 0 3 (5 : Nat) = [(0, 3, 5)] :=
  ⟨by decide, C9_short_recording_single_chunk 4 0 3 5 (by decide)⟩

/-- Embedding of the Python slice `x_data[begin:end]` on a list. -/
def pySlice {α : Type} (xs : List α) (b e : Nat) : List α :=
  (xs.drop b).take (e - b)

/-- Embedding of one row of `DataGenerator.__generate_xy_batches`
(lines 131-137): the slice is used as-is when its index length equals
`L = input_frames_number`; otherwise `np.tile(x, (L // len(x) + 1, 1))`
truncated to its first `L` frames. A zero-length slice reaches the
division `L // len(x)` and raises `ZeroDivisionError`, embedded as
`none`. -/
def generate_xy_row {α : Type} (L : Nat) (x_data : List α) (b e : Nat) :
    Option (List α) :=
  let x := pySlice x_data b e
  if e - b = L then some x
  else if x.length = 0 then none
  else some (((List.replicate (L / x.length + 1) x).flatten).take L)

/-- Embedding of `DataGenerator.__generate_xy_batches` (lines 122-138):
one feature row and one label per chunk descriptor; any failing row
aborts the whole call. -/
def generate_xy_batches {α β : Type} (L : Nat) (x_data : List α)
    (indices : List (Nat × Nat × β)) : Option (List (List α) × List β) :=
  match indices with
  | [] => some ([], [])
  | (b, e, y) :: rest =>
    match generate_xy_row L x_data b e, generate_xy_batches L x_data rest with
    | some row, some (xb, yb) => some (row :: xb, y :: yb)
    | _, _ => none

theorem pySlice_length {α : Type} (xs : List α) (b e : Nat)
    (h : e ≤ xs.length) : (pySlice xs b e).length = e - b := by
  simp [pySlice]
  omega

theorem pySlice_subset {α : Type} (xs : List α) (b e : Nat) :
    ∀ v ∈ pySlice xs b e, v ∈ xs := by
  intro v hv
  exact List.mem_of_mem_drop (List.mem_of_mem_take hv)

theorem tile_length_ge {α : Type} (L : Nat) (x : List α) (hx : 0 < x.length) :
    L ≤ ((List.replicate (L / x.length + 1) x).flatten).length := by
  rw [List.length_flatten, List.map_replicate, List.sum_replicate, smul_eq_mul]
  have h1 : x.length * (L / x.length) + L % x.length = L :=
    Nat.div_add_mod _ _
  have h2 : L % x.length < x.length := Nat.mod_lt _ hx
  have h3 : (L / x.length + 1) * x.length = x.length * (L / x.length) + x.length := by
    ring
  omega

theorem generate_xy_row_spec {α : Type} (L : Nat) (x_data : List α) (b e : Nat)
    (h1 : 1 ≤ e - b) (h2 : e ≤ x_data.length) :
    ∃ row, generate_xy_row L x_data b e = some row ∧ row.length = L ∧
      (e - b = L → row = pySlice x_data b e) ∧
      (e - b ≠ L →
        row = ((List.replicate (L / (e - b) + 1) (pySlice x_data b e)).flatten).take L) := by
  have hlen : (pySlice x_data b e).length = e - b := pySlice_length x_data b e h2
  by_cases hL : e - b = L
  · refine ⟨pySlice x_data b e, ?_, ?_, fun _ => rfl, fun h => absurd hL h⟩
    · rw [generate_xy_row, if_pos hL]
    · rw [hlen, hL]
  · have hx : 0 < (pySlice x_data b e).length := by omega
    refine ⟨((List.replicate (L / (e - b) + 1) (pySlice x_data b e)).flatten).take L,
      ?_, ?_, fun h => absurd h hL, fun _ => rfl⟩
    · rw [generate_xy_row]
      simp only [if_neg hL, if_neg (by omega : ¬(pySlice x_data b e).length = 0)]
      rw [hlen]
    · rw [List.length_take]
      have := tile_length_ge L (pySlice x_data b e) hx
      rw [hlen] at this
      omega

theorem generate_xy_row_values {α : Type} (L : Nat) (x_data : List α)
    (b e : Nat) (row : List α) (h : generate_xy_row L x_data b e = some row) :
    ∀ v ∈ row, v ∈ x_data := by
  intro v hv
  rw [generate_xy_row] at h
  split at h
  · cases h
    exact pySlice_subset x_data b e v hv
  · split at h
    · cases h
    · cases h
      have h1 := List.mem_of_mem_take hv
      rw [List.mem_flatten] at h1
      obtain ⟨l, hl, hvl⟩ := h1
      rw [List.eq_of_mem_replicate hl] at hvl
      exact pySlice_subset x_data b e v hvl

theorem generate_xy_batches_spec {α β : Type} (L : Nat) (x_data : List α)
    (indices : List (Nat × Nat × β))
    (h : ∀ d ∈ indices, 1 ≤ d.2.1 - d.1 ∧ d.2.1 ≤ x_data.length) :
    ∃ xb yb, generate_xy_batches L x_data indices = some (xb, yb) ∧
      xb.length = indices.length ∧
      yb = indices.map (fun d => d.2.2) ∧
      List.Forall₂ (fun d row => generate_xy_row L x_data d.1 d.2.1 = some row)
        indices xb := by
  induction indices with
  | nil => exact ⟨[], [], rfl, rfl, rfl, List.Forall₂.nil⟩
  | cons d rest ih =>
    obtain ⟨hd1, hd2⟩ := h d (List.mem_cons_self d rest)
    obtain ⟨xb, yb, hrest, hlen, hyb, hall⟩ :=
      ih (fun d' hd' => h d' (List.mem_cons_of_mem d hd'))
    obtain ⟨row, hrow, -, -, -⟩ :=
      generate_xy_row_spec L x_data d.1 d.2.1 hd1 hd2
    refine ⟨row :: xb, d.2.2 :: yb, ?_, by simp [hlen], by simp [hyb],
      List.Forall₂.cons hrow hall⟩
    obtain ⟨b, e, y⟩ := d
    rw [generate_xy_batches]
    simp only at hrow
    rw [hrow, hrest]

theorem forall₂_imp_of_mem {α β : Type} {R S : α → β → Prop} :
    ∀ {l1 : List α} {l2 : List β}, List.Forall₂ R l1 l2 →
      (∀ a ∈ l1, ∀ b, R a b → S a b) → List.Forall₂ S l1 l2 := by
  intro l1 l2 hall himp
  induction hall with
  | nil => exact List.Forall₂.nil
  | cons hab _ ih =>
    refine List.Forall₂.cons (himp _ (List.mem_cons_self _ _) _ hab) ?_
    exact ih (fun a ha b hb => himp a (List.mem_cons_of_mem _ ha) b hb)

/-- Claim C2 (confirmed): for every list of chunk descriptors whose index
lengths `end - begin` are at least 1 and lie within the feature table,
batch materialization succeeds and every returned feature row has exactly
`L` frames; a slice of length exactly `L` is used as-is, and a shorter
slice is tiled along the frame axis (`L // len + 1` repetitions, enough to
reach at least `L` frames) and truncated to its first `L` frames. -/
theorem C2_materialize_exact_length {α β : Type} (L : Nat) (x_data : List α)
    (indices : List (Nat × Nat × β))
    (h : ∀ d ∈ indices, 1 ≤ d.2.1 - d.1 ∧ d.2.1 ≤ x_data.length) :
    ∃ xb yb, generate_xy_batches L x_data indices = some (xb, yb) ∧
      xb.length = indices.length ∧
      List.Forall₂ (fun d row => row.length = L ∧
        (d.2.1 - d.1 = L → row = pySlice x_data d.1 d.2.1) ∧
        (d.2.1 - d.1 ≠ L →
          row = ((List.replicate (L / (d.2.1 - d.1) + 1)
            (pySlice x_data d.1 d.2.1)).flatten).take L)) indices xb := by
  obtain ⟨xb, yb, hbat, hlen, -, hall⟩ :=
    generate_xy_batches_spec L x_data indices h
  refine ⟨xb, yb, hbat, hlen, forall₂_imp_of_mem hall ?_⟩
  intro d hd row hrow
  obtain ⟨hd1, hd2⟩ := h d hd
  obtain ⟨row', hrow', hL, has, htile⟩ :=
    generate_xy_row_spec L x_data d.1 d.2.1 hd1 hd2
  rw [hrow] at hrow'
  cases hrow'
  exact ⟨hL, has, htile⟩

/-- Witness for C2_materialize_exact_length: one short chunk `[0, 3)` with
`L = 4` over a three-frame table. -/
theorem C2_materialize_exact_length_witness :
    (∀ d ∈ [((0 : Nat), (3 : Nat), (7 : Nat))],
      1 ≤ d.2.1 - d.1 ∧ d.2.1 ≤ ([(0 : ℚ), 1, 2]).length) ∧
    (∃ xb yb,
      generate_xy_batches 4 [(0 : ℚ), 1, 2] [((0 : Nat), (3 : Nat), (7 : Nat))]
        = some (xb, yb) ∧
      xb.length = [((0 : Nat), (3 : Nat), (7 : Nat))].length ∧
      List.Forall₂ (fun d row => row.length = 4 ∧
        (d.2.1 - d.1 = 4 → row = pySlice [(0 : ℚ), 1, 2] d.1 d.2.1) ∧
        (d.2.1 - d.1 ≠ 4 →
          row = ((List.replicate (4 / (d.2.1 - d.1) + 1)
            (pySlice [(0 : ℚ), 1, 2] d.1 d.2.1)).flatten).take 4))
        [((0 : Nat), (3 : Nat), (7 : Nat))] xb) :=
  ⟨by decide,
    C2_materialize_exact_length 4 [(0 : ℚ), 1, 2]
      [((0 : Nat), (3 : Nat), (7 : Nat))] (by decide)⟩

/-- Claim C5 (corrected, counterexample): the claim asserts that a
zero-frame chunk descriptor (`end == begin`) is materialized into a
degenerate repeated-frame chunk without failing. In the code the slice is
empty and `input_frames_number // len(x)` raises `ZeroDivisionError`:
materialization fails (embedded as `none`) at the concrete descriptor
`(0, 0)` with `L = 4`. -/
theorem C5_counterexample :
    generate_xy_batches 4 [(1 : ℚ)] [((0 : Nat), (0 : Nat), (0 : Nat))] = none := by
  rfl

/-- Claim C5 (amended): for every chunk descriptor with `end == begin`
(a zero-frame recording) and positive `L`, batch materialization fails
with a division-by-zero error (embedded as `none`); degenerate
repeated-frame chunks are produced only for source lengths between 1 and
`L - 1`. -/
theorem C5_zero_frames_fails {α : Type} (L : Nat) (x_data : List α) (b : Nat)
    (hL : 0 < L) : generate_xy_row L x_data b b = none := by
  rw [generate_xy_row]
  simp [Nat.sub_self, pySlice, List.take_zero, List.length_nil,
    if_neg (by omega : ¬(0 : Nat) = L)]

/-- Witness for C5_zero_frames_fails at `L = 4`, descriptor `(0, 0)`. -/
theorem C5_zero_frames_fails_witness :
    0 < 4 ∧ generate_xy_row 4 [(1 : ℚ)] 0 0 = none :=
  ⟨by decide, C5_zero_frames_fails 4 [(1 : ℚ)] 0 (by decide)⟩

/-- State of `DataGenerator.train_generator` (lines 140-174): the shuffled
working copy of the chunk pool, the batch cursor `batch_begin_ind`, the
epoch counter and the training RNG state. The numpy RNG is abstracted as
a state type `σ` with an explicit `shuffle : σ → List D → List D × σ`. -/
structure TrainState (σ D : Type) where
  pool : List D
  bb : Nat
  epoch : Nat
  rng : σ

/-- Embedding of line 151: `self.epoch_len = self.train_chunks_len //
self.batch_size + 1`. -/
def trainEpochLen (poolLen batchSize : Nat) : Nat := poolLen / batchSize + 1

/-- One iteration of the `while True` loop of `train_generator` (lines
159-174): reset the cursor and reshuffle when the cursor has passed the
pool, then slice `batch_size` descriptors and advance the cursor. -/
def trainStep {σ D : Type} (shuffle : σ → List D → List D × σ)
    (len bs : Nat) (st : TrainState σ D) : List D × TrainState σ D :=
  let st' := if len ≤ st.bb then
      ⟨(shuffle st.rng st.pool).1, 0, st.epoch + 1, (shuffle st.rng st.pool).2⟩
    else st
  ((st'.pool.drop st'.bb).take bs,
    ⟨st'.pool, st'.bb + bs, st'.epoch, st'.rng⟩)

/-- The first `n` yielded descriptor batches of `train_generator` together
with the state after them. -/
def trainRun {σ D : Type} (shuffle : σ → List D → List D × σ)
    (len bs : Nat) : Nat → TrainState σ D → List (List D) × TrainState σ D
  | 0, st => ([], st)
  | n + 1, st =>
    let bst := trainStep shuffle len bs st
    let rest := trainRun shuffle len bs n bst.2
    (bst.1 :: rest.1, rest.2)

/-- Initial state of `train_generator` (lines 148-158): copy the canonical
pool, shuffle it once with the training RNG, set `epoch = 1` and the
cursor to 0. -/
def trainInit {σ D : Type} (shuffle : σ → List D → List D × σ)
    (r0 : σ) (chunks : List D) : TrainState σ D :=
  ⟨(shuffle r0 chunks).1, 0, 1, (shuffle r0 chunks).2⟩

/-- Consecutive slices of size `bs` of a list, as `train_generator` carves
one epoch's shuffled pool. -/
def chunkList {α : Type} (bs : Nat) (l : List α) : List (List α) :=
  if h : bs = 0 ∨ l.length = 0 then []
  else l.take bs :: chunkList bs (l.drop bs)
termination_by l.length
decreasing_by
  rw [not_or] at h
  obtain ⟨h1, h2⟩ := h
  simp only [List.length_drop]
  omega

theorem chunkList_nil {α : Type} (bs : Nat) : chunkList bs ([] : List α) = [] := by
  rw [chunkList]
  simp

theorem chunkList_cons {α : Type} {bs : Nat} (hbs : 0 < bs) {l : List α}
    (hl : l ≠ []) : chunkList bs l = l.take bs :: chunkList bs (l.drop bs) := by
  rw [chunkList, dif_neg]
  push_neg
  constructor
  · omega
  · intro h0
    exact hl (List.eq_nil_of_length_eq_zero h0)

theorem chunkList_flatten {α : Type} (bs : Nat) (hbs : 0 < bs) :
    ∀ l : List α, (chunkList bs l).flatten = l := by
  have key : ∀ n (l : List α), l.length ≤ n → (chunkList bs l).flatten = l := by
    intro n
    induction n with
    | zero =>
      intro l hl
      have h0 : l = [] := List.eq_nil_of_length_eq_zero (by omega)
      rw [h0, chunkList_nil]
      rfl
    | succ n ih =>
      intro l hl
      by_cases h : l = []
      · rw [h, chunkList_nil]
        rfl
      · rw [chunkList_cons hbs h, List.flatten_cons, ih (l.drop bs) ?_,
          List.take_append_drop]
        have : l.length ≠ 0 := fun h0 => h (List.eq_nil_of_length_eq_zero h0)
        simp only [List.length_drop]
        omega
  exact fun l => key l.length l le_rfl

theorem chunkList_ne_nil_of_arg {α : Type} {bs : Nat} {l : List α}
    (h : chunkList bs l ≠ []) : l ≠ [] := by
  intro hl
  rw [hl, chunkList_nil] at h
  exact h rfl

theorem chunkList_sizes {α : Type} (bs : Nat) (hbs : 0 < bs) :
    ∀ (l : List α) (k : Nat), k + 1 < (chunkList bs l).length →
      ((chunkList bs l).getD k []).length = bs := by
  have key : ∀ n (l : List α), l.length ≤ n → ∀ k,
      k + 1 < (chunkList bs l).length →
      ((chunkList bs l).getD k []).length = bs := by
    intro n
    induction n with
    | zero =>
      intro l hl k hk
      have h0 : l = [] := List.eq_nil_of_length_eq_zero (by omega)
      rw [h0, chunkList_nil] at hk
      simp at hk
    | succ n ih =>
      intro l hl k hk
      by_cases h : l = []
      · rw [h, chunkList_nil] at hk
        simp at hk
      · rw [chunkList_cons hbs h] at hk ⊢
        match k with
        | 0 =>
          have hrest : chunkList bs (l.drop bs) ≠ [] := by
            intro hr
            rw [hr] at hk
            simp at hk
          have hdrop : l.drop bs ≠ [] := chunkList_ne_nil_of_arg hrest
          have hlen : bs < l.length := by
            by_contra hc
            exact hdrop (List.drop_eq_nil_of_le (by omega))
          simp only [List.getD_cons_zero, List.length_take]
          omega
        | k + 1 =>
          simp only [List.getD_cons_succ]
          refine ih (l.drop bs) ?_ k ?_
          · have : l.length ≠ 0 := fun h0 => h (List.eq_nil_of_length_eq_zero h0)
            simp only [List.length_drop]
            omega
          · simp only [List.length_cons] at hk
            omega
  exact fun l => key l.length l le_rfl

theorem trainRun_length {σ D : Type} (shuffle : σ → List D → List D × σ)
    (len bs : Nat) : ∀ n (st : TrainState σ D),
      (trainRun shuffle len bs n st).1.length = n := by
  intro n
  induction n with
  | zero => intro st; rfl
  | succ n ih =>
    intro st
    simp only [trainRun, List.length_cons, ih]

theorem trainRun_add {σ D : Type} (shuffle : σ → List D → List D × σ)
    (len bs : Nat) : ∀ m n (st : TrainState σ D),
      trainRun shuffle len bs (m + n) st =
        ((trainRun shuffle len bs m st).1 ++
          (trainRun shuffle len bs n (trainRun shuffle len bs m st).2).1,
         (trainRun shuffle len bs n (trainRun shuffle len bs m st).2).2) := by
  intro m
  induction m with
  | zero =>
    intro n st
    simp only [Nat.zero_add, trainRun, List.nil_append]
  | succ m ih =>
    intro n st
    have hadd : m + 1 + n = (m + n) + 1 := by omega
    rw [hadd]
    simp only [trainRun, ih, List.cons_append]

theorem trainRun_epoch_fresh {σ D : Type} (shuffle : σ → List D → List D × σ)
    (bs : Nat) (hbs : 0 < bs) (len : Nat) :
    ∀ n (p : List D) (bb ep : Nat) (r : σ), p.length = len →
      n ≤ ceilSteps len bs → bb = (ceilSteps len bs - n) * bs →
      trainRun shuffle len bs n ⟨p, bb, ep, r⟩ =
        (chunkList bs (p.drop bb),
         ⟨p, ceilSteps len bs * bs, ep, r⟩) := by
  intro n
  induction n with
  | zero =>
    intro p bb ep r hp hn hbb
    simp only [Nat.sub_zero] at hbb
    subst hbb
    have hge : len ≤ ceilSteps len bs * bs := le_ceilSteps_mul hbs
    have hdrop : p.drop (ceilSteps len bs * bs) = [] := by
      apply List.drop_eq_nil_of_le
      omega
    rw [trainRun, hdrop, chunkList_nil]
  | succ n ih =>
    intro p bb ep r hp hn hbb
    have hj : ceilSteps len bs - (n + 1) < ceilSteps len bs := by omega
    have hlt : bb < len := by
      rw [hbb]
      exact mul_lt_of_lt_ceilSteps hbs hj
    have hstep : trainStep shuffle len bs ⟨p, bb, ep, r⟩ =
        ((p.drop bb).take bs, ⟨p, bb + bs, ep, r⟩) := by
      rw [trainStep]
      dsimp only
      rw [if_neg (by omega)]
    rw [trainRun]
    simp only [hstep]
    rw [ih p (bb + bs) ep r hp (by omega) (by
      rw [hbb]
      have hsub : ceilSteps len bs - n = (ceilSteps len bs - (n + 1)) + 1 := by
        omega
      rw [hsub, Nat.add_mul, Nat.one_mul])]
    have hpd : p.drop bb ≠ [] := by
      intro hd
      rw [List.drop_eq_nil_iff] at hd
      omega
    rw [chunkList_cons hbs hpd, List.drop_drop]

theorem trainRun_epoch_wrapped {σ D : Type} (shuffle : σ → List D → List D × σ)
    (bs : Nat) (hbs : 0 < bs) (len : Nat) (p : List D) (bb ep : Nat) (r : σ)
    (hp : p.length = len) (hlen : 0 < len) (hbb : len ≤ bb)
    (hplen : (shuffle r p).1.length = len) :
    trainRun shuffle len bs (ceilSteps len bs) ⟨p, bb, ep, r⟩ =
      (chunkList bs (shuffle r p).1,
       ⟨(shuffle r p).1, ceilSteps len bs * bs, ep + 1, (shuffle r p).2⟩) := by
  have hepb : 0 < ceilSteps len bs :=
    lt_ceilSteps_of_mul_lt hbs (by simpa using hlen)
  obtain ⟨n, hn⟩ : ∃ n, ceilSteps len bs = n + 1 :=
    ⟨ceilSteps len bs - 1, by omega⟩
  have hstep : trainStep shuffle len bs ⟨p, bb, ep, r⟩ =
      (((shuffle r p).1.drop 0).take bs,
       ⟨(shuffle r p).1, 0 + bs, ep + 1, (shuffle r p).2⟩) := by
    rw [trainStep, if_pos hbb]
  rw [hn, trainRun]
  simp only [hstep, List.drop_zero, Nat.zero_add]
  rw [trainRun_epoch_fresh shuffle bs hbs len n (shuffle r p).1 bs (ep + 1)
    (shuffle r p).2 hplen (by omega) (by
      have : ceilSteps len bs - n = 1 := by omega
      rw [this, Nat.one_mul])]
  have hpne : (shuffle r p).1 ≠ [] := by
    intro he
    rw [he] at hplen
    simp at hplen
    omega
  rw [chunkList_cons hbs hpne, hn]

theorem trainRun_epoch_start {σ D : Type} (shuffle : σ → List D → List D × σ)
    (hsh : ∀ (r : σ) (l : List D), ((shuffle r l).1).Perm l)
    (chunks : List D) (hne : chunks ≠ []) (bs : Nat) (hbs : 0 < bs) (r0 : σ) :
    ∀ e, ∃ p bb ep r,
      (trainRun shuffle chunks.length bs (e * ceilSteps chunks.length bs)
        (trainInit shuffle r0 chunks)).2 = ⟨p, bb, ep, r⟩ ∧
      p.Perm chunks ∧ (bb = 0 ∨ chunks.length ≤ bb) := by
  intro e
  induction e with
  | zero =>
    rw [Nat.zero_mul]
    exact ⟨(shuffle r0 chunks).1, 0, 1, (shuffle r0 chunks).2, rfl,
      hsh r0 chunks, Or.inl rfl⟩
  | succ e ih =>
    obtain ⟨p, bb, ep, r, hst, hperm, hbbcase⟩ := ih
    have hplen : p.length = chunks.length := hperm.length_eq
    have hlen0 : 0 < chunks.length := List.length_pos.mpr hne
    have hmul : (e + 1) * ceilSteps chunks.length bs =
        e * ceilSteps chunks.length bs + ceilSteps chunks.length bs := by ring
    rw [hmul, trainRun_add, hst]
    rcases hbbcase with hbb0 | hbbge
    · subst hbb0
      rw [trainRun_epoch_fresh shuffle bs hbs chunks.length
        (ceilSteps chunks.length bs) p 0 ep r hplen le_rfl
        (by rw [Nat.sub_self, Nat.zero_mul])]
      exact ⟨p, ceilSteps chunks.length bs * bs, ep, r, rfl, hperm,
        Or.inr (by
          have := @le_ceilSteps_mul chunks.length bs hbs
          omega)⟩
    · rw [trainRun_epoch_wrapped shuffle bs hbs chunks.length p bb ep r hplen
        hlen0 hbbge (by rw [(hsh r p).length_eq, hplen])]
      exact ⟨(shuffle r p).1, ceilSteps chunks.length bs * bs, ep + 1,
        (shuffle r p).2, rfl, (hsh r p).trans hperm,
        Or.inr (by
          have := @le_ceilSteps_mul chunks.length bs hbs
          omega)⟩

/-- Claim C3 (confirmed): the training generator stores
`epoch_len = pool_size // batch_size + 1`; the descriptor batches it
yields come in epochs of `ceil(pool_size / batch_size)` consecutive
batches, each epoch being exactly the consecutive `batch_size`-sized
slices of a single shuffled permutation `p` of the canonical pool: every
batch before the final (possibly short) one of an epoch has exactly
`batch_size` rows, concatenating one epoch's batches reproduces that
epoch's shuffled pool `p` with no duplicates and no omissions, and no
batch mixes descriptors of two different epochs (each epoch's segment is
carved from the single pool `p`). The shuffle is abstracted as any
permutation-producing function threaded through the RNG state. -/
theorem C3_train_generator_epoch_structure {σ D : Type}
    (shuffle : σ → List D → List D × σ)
    (hsh : ∀ (r : σ) (l : List D), ((shuffle r l).1).Perm l)
    (chunks : List D) (hne : chunks ≠ []) (bs : Nat) (hbs : 0 < bs)
    (r0 : σ) (e : Nat) :
    trainEpochLen chunks.length bs = chunks.length / bs + 1 ∧
    ∃ p, p.Perm chunks ∧
      ((trainRun shuffle chunks.length bs
          ((e + 1) * ceilSteps chunks.length bs)
          (trainInit shuffle r0 chunks)).1).drop
        (e * ceilSteps chunks.length bs) = chunkList bs p ∧
      (chunkList bs p).length = ceilSteps chunks.length bs ∧
      (∀ k, k + 1 < (chunkList bs p).length →
        ((chunkList bs p).getD k []).length = bs) ∧
      (chunkList bs p).flatten = p := by
  refine ⟨rfl, ?_⟩
  have hlen0 : 0 < chunks.length := List.length_pos.mpr hne
  obtain ⟨p, bb, ep, r, hst, hperm, hbbcase⟩ :=
    trainRun_epoch_start shuffle hsh chunks hne bs hbs r0 e
  have hplen : p.length = chunks.length := hperm.length_eq
  have hmul : (e + 1) * ceilSteps chunks.length bs =
      e * ceilSteps chunks.length bs + ceilSteps chunks.length bs := by ring
  have hb1len : (trainRun shuffle chunks.length bs
      (e * ceilSteps chunks.length bs) (trainInit shuffle r0 chunks)).1.length
      = e * ceilSteps chunks.length bs := trainRun_length shuffle _ _ _ _
  rcases hbbcase with hbb0 | hbbge
  · subst hbb0
    refine ⟨p, hperm, ?_, ?_, chunkList_sizes bs hbs p, chunkList_flatten bs hbs p⟩
    · rw [hmul, trainRun_add, hst,
        trainRun_epoch_fresh shuffle bs hbs chunks.length
          (ceilSteps chunks.length bs) p 0 ep r hplen le_rfl
          (by rw [Nat.sub_self, Nat.zero_mul]),
        List.drop_zero, List.drop_left' hb1len]
    · rw [← trainRun_length shuffle chunks.length bs
        (ceilSteps chunks.length bs) (⟨p, 0, ep, r⟩ : TrainState σ D),
        trainRun_epoch_fresh shuffle bs hbs chunks.length
          (ceilSteps chunks.length bs) p 0 ep r hplen le_rfl
          (by rw [Nat.sub_self, Nat.zero_mul]), List.drop_zero]
  · refine ⟨(shuffle r p).1, (hsh r p).trans hperm, ?_, ?_,
      chunkList_sizes bs hbs _, chunkList_flatten bs hbs _⟩
    · rw [hmul, trainRun_add, hst,
        trainRun_epoch_wrapped shuffle bs hbs chunks.length p bb ep r hplen
          hlen0 hbbge (by rw [(hsh r p).length_eq, hplen]),
        List.drop_left' hb1len]
    · rw [← trainRun_length shuffle chunks.length bs
        (ceilSteps chunks.length bs) (⟨p, bb, ep, r⟩ : TrainState σ D),
        trainRun_epoch_wrapped shuffle bs hbs chunks.length p bb ep r hplen
          hlen0 hbbge (by rw [(hsh r p).length_eq, hplen])]

/-- Witness for C3_train_generator_epoch_structure: pool `[10, 20, 30]`,
batch size 2, a reversing shuffle, second epoch. -/
theorem C3_train_generator_epoch_structure_witness :
    (∀ (r : Unit) (l : List Nat),
      (((fun (r' : Unit) (l' : List Nat) => (l'.reverse, r')) r l).1).Perm l) ∧
    ([10, 20, 30] : List Nat) ≠ [] ∧ 0 < 2 ∧
    (trainEpochLen ([10, 20, 30] : List Nat).length 2 =
        ([10, 20, 30] : List Nat).length / 2 + 1 ∧
      ∃ p, p.Perm ([10, 20, 30] : List Nat) ∧
        ((trainRun (fun (r' : Unit) (l' : List Nat) => (l'.reverse, r'))
            ([10, 20, 30] : List Nat).length 2
            ((1 + 1) * ceilSteps ([10, 20, 30] : List Nat).length 2)
            (trainInit (fun (r' : Unit) (l' : List Nat) => (l'.reverse, r')) ()
              [10, 20, 30])).1).drop
          (1 * ceilSteps ([10, 20, 30] : List Nat).length 2) = chunkList 2 p ∧
        (chunkList 2 p).length = ceilSteps ([10, 20, 30] : List Nat).length 2 ∧
        (∀ k, k + 1 < (chunkList 2 p).length →
          ((chunkList 2 p).getD k []).length = 2) ∧
        (chunkList 2 p).flatten = p) :=
  ⟨fun _ l => l.reverse_perm, by decide, by decide,
    C3_train_generator_epoch_structure
      (fun (r' : Unit) (l' : List Nat) => (l'.reverse, r'))
      (fun _ l => l.reverse_perm) [10, 20, 30] (by decide) 2 (by decide) () 1⟩

/-- Normalization applied to one frame: `(x - mean) / std` (lines 170,
204, 249; scalar per-frame features, the rank-1 path of the source). -/
def normalizeRow (mean std : ℚ) (row : List ℚ) : List ℚ :=
  row.map (fun v => (v - mean) / std)

/-- The per-engine data consumed by `train_generator`: the canonical chunk
pool, the feature table, the training statistics, the configuration and
the training RNG seed (`params.seed`, line 30). -/
structure TrainEngine where
  chunks : List (Nat × Nat × Nat)
  x : List ℚ
  mean : ℚ
  std : ℚ
  inputFramesNumber : Nat
  batchSize : Nat
  seed : Nat

/-- The first `n` `(features, labels)` batches yielded by
`train_generator`: descriptor batches produced by the cursor loop,
materialized by `__generate_xy_batches` and normalized with the training
statistics. `rngOfSeed` abstracts `np.random.RandomState(seed)`. -/
def trainStream {σ : Type}
    (shuffle : σ → List (Nat × Nat × Nat) → List (Nat × Nat × Nat) × σ)
    (rngOfSeed : Nat → σ) (g : TrainEngine) (n : Nat) :
    List (Option (List (List ℚ) × List Nat)) :=
  ((trainRun shuffle g.chunks.length g.batchSize n
      (trainInit shuffle (rngOfSeed g.seed) g.chunks)).1).map
    (fun batch => (generate_xy_batches g.inputFramesNumber g.x batch).map
      (fun xy => (xy.1.map (normalizeRow g.mean g.std), xy.2)))

/-- The shuffled working pool after `n` yielded batches: the shuffle order
the generator is traversing. -/
def trainPoolAfter {σ : Type}
    (shuffle : σ → List (Nat × Nat × Nat) → List (Nat × Nat × Nat) × σ)
    (rngOfSeed : Nat → σ) (g : TrainEngine) (n : Nat) :
    List (Nat × Nat × Nat) :=
  ((trainRun shuffle g.chunks.length g.batchSize n
      (trainInit shuffle (rngOfSeed g.seed) g.chunks)).2).pool

/-- Claim C7 (confirmed): two engine instances constructed with the same
seed over the same data produce identical shuffle orders and an identical
sequence of `(features, labels)` batches. The RNG is instance-local
(`np.random.RandomState(seed=params.seed)`, line 30) and is modelled by a
deterministic `rngOfSeed`; no other source of randomness enters the
training stream. -/
theorem C7_train_determinism {σ : Type}
    (shuffle : σ → List (Nat × Nat × Nat) → List (Nat × Nat × Nat) × σ)
    (rngOfSeed : Nat → σ) (g1 g2 : TrainEngine)
    (h1 : g1.seed = g2.seed) (h2 : g1.chunks = g2.chunks)
    (h3 : g1.x = g2.x) (h4 : g1.mean = g2.mean) (h5 : g1.std = g2.std)
    (h6 : g1.inputFramesNumber = g2.inputFramesNumber)
    (h7 : g1.batchSize = g2.batchSize) (n : Nat) :
    trainStream shuffle rngOfSeed g1 n = trainStream shuffle rngOfSeed g2 n ∧
    trainPoolAfter shuffle rngOfSeed g1 n
      = trainPoolAfter shuffle rngOfSeed g2 n := by
  obtain ⟨c1, x1, m1, s1, L1, b1, sd1⟩ := g1
  obtain ⟨c2, x2, m2, s2, L2, b2, sd2⟩ := g2
  simp only at h1 h2 h3 h4 h5 h6 h7
  subst h1
  subst h2
  subst h3
  subst h4
  subst h5
  subst h6
  subst h7
  exact ⟨rfl, rfl⟩

/-- Witness for C7_train_determinism: two identical concrete engines. -/
theorem C7_train_determinism_witness :
    ((⟨[(0, 2, 1)], [1, 2], 0, 1, 2, 1, 5⟩ : TrainEngine).seed
        = (⟨[(0, 2, 1)], [1, 2], 0, 1, 2, 1, 5⟩ : TrainEngine).seed) ∧
    (trainStream (fun (r : Unit) (l : List (Nat × Nat × Nat)) => (l.reverse, r))
        (fun _ => ()) ⟨[(0, 2, 1)], [1, 2], 0, 1, 2, 1, 5⟩ 3
      = trainStream (fun (r : Unit) (l : List (Nat × Nat × Nat)) => (l.reverse, r))
        (fun _ => ()) ⟨[(0, 2, 1)], [1, 2], 0, 1, 2, 1, 5⟩ 3 ∧
    trainPoolAfter (fun (r : Unit) (l : List (Nat × Nat × Nat)) => (l.reverse, r))
        (fun _ => ()) ⟨[(0, 2, 1)], [1, 2], 0, 1, 2, 1, 5⟩ 3
      = trainPoolAfter (fun (r : Unit) (l : List (Nat × Nat × Nat)) => (l.reverse, r))
        (fun _ => ()) ⟨[(0, 2, 1)], [1, 2], 0, 1, 2, 1, 5⟩ 3) :=
  ⟨rfl, C7_train_determinism
    (fun (r : Unit) (l : List (Nat × Nat × Nat)) => (l.reverse, r))
    (fun _ => ()) ⟨[(0, 2, 1)], [1, 2], 0, 1, 2, 1, 5⟩
    ⟨[(0, 2, 1)], [1, 2], 0, 1, 2, 1, 5⟩ rfl rfl rfl rfl rfl rfl rfl 3⟩

/-- The `mode` argument of `validation_generator` ('train' or
'validation', line 186). -/
inductive Mode
  | train
  | validation

/-- The stored canonical state of the engine that `validation_generator`
reads (lines 60-67, 46-49, 89-90), plus the dedicated evaluation RNG
(`validation_rand_generator`, line 32). -/
structure Engine (σ : Type) where
  trainAudioIndices : List Nat
  validationAudioIndices : List Nat
  manuallyVerified : List Nat
  beginEndIndices : List (Nat × Nat)
  y : List Nat
  x : List ℚ
  mean : ℚ
  std : ℚ
  inputFramesNumber : Nat
  evalAudiosNumber : Nat
  validationRng : σ

/-- Embedding of `DataGenerator.validation_generator` (lines 176-206),
returning the yielded sequence together with the engine state after the
call. Python aliasing is embedded faithfully: `audio_indices` starts as a
reference to the stored index array of the selected mode; the
`manually_verified_only` filter creates a fresh array, but without it the
in-place `shuffle` permutes the stored array itself, so the new engine
state carries the shuffled array for the selected mode in that case. -/
def validationGenerator {σ : Type} (shuffle : σ → List Nat → List Nat × σ)
    (g : Engine σ) (mode : Mode) (mvOnly shuf : Bool) :
    List (Option (List (List ℚ) × List Nat) × Nat) × Engine σ :=
  let base := match mode with
    | Mode.train => g.trainAudioIndices
    | Mode.validation => g.validationAudioIndices
  let filtered := if mvOnly then
      base.filter (fun a => g.manuallyVerified.getD a 0 = 1)
    else base
  let shuffled := if shuf then (shuffle g.validationRng filtered).1 else filtered
  let rng' := if shuf then (shuffle g.validationRng filtered).2
    else g.validationRng
  let outs := (shuffled.take g.evalAudiosNumber).map (fun aind =>
    let be := g.beginEndIndices.getD aind (0, 0)
    let yv := g.y.getD aind 0
    let chunks := generate_chunks g.inputFramesNumber be.1 be.2 yv
    ((generate_xy_batches g.inputFramesNumber g.x chunks).map
      (fun xy => (xy.1.map (normalizeRow g.mean g.std), xy.2)), yv))
  let g' : Engine σ :=
    if shuf && !mvOnly then
      match mode with
      | Mode.train =>
        { g with trainAudioIndices := shuffled, validationRng := rng' }
      | Mode.validation =>
        { g with validationAudioIndices := shuffled, validationRng := rng' }
    else { g with validationRng := rng' }
  (outs, g')

/-- Claim C4 (corrected, counterexample): the claim asserts that every
call of the validation/evaluation generator, including
`shuffle=True, manually_verified_only=False`, leaves the engine's stored
index arrays unchanged. With `mode='train'`, `manually_verified_only=False`
and `shuffle=True`, `audio_indices` aliases `self.train_audio_indices`
and the in-place shuffle permutes the stored array: for a concrete engine
with train indices `[0, 1]` and a reversing shuffle, the stored array
after the call is `[1, 0]` and differs from the original. -/
theorem C4_counterexample :
    ((validationGenerator (fun (r : Unit) (l : List Nat) => (l.reverse, r))
        ⟨[0, 1], [], [], [], [], [], 0, 1, 2, 0, ()⟩
        Mode.train false true).2).trainAudioIndices ≠ ([0, 1] : List Nat) := by
  decide

/-- Claim C4 (amended): every call of the validation/evaluation generator
leaves the feature table, the normalization statistics, the label array,
the offset table and the verification flags unchanged and can only
permute the stored index arrays; the index arrays are bitwise unchanged
whenever `shuffle` is false or `manually_verified_only` is true, but with
`shuffle=True` and `manually_verified_only=False` the stored index array
of the selected mode is replaced in place by its shuffled permutation
(the other mode's array stays unchanged). -/
theorem C4_validation_generator_state {σ : Type}
    (shuffle : σ → List Nat → List Nat × σ)
    (hsh : ∀ (r : σ) (l : List Nat), ((shuffle r l).1).Perm l)
    (g : Engine σ) (mode : Mode) (mvOnly shuf : Bool) :
    ((validationGenerator shuffle g mode mvOnly shuf).2).x = g.x ∧
    ((validationGenerator shuffle g mode mvOnly shuf).2).mean = g.mean ∧
    ((validationGenerator shuffle g mode mvOnly shuf).2).std = g.std ∧
    ((validationGenerator shuffle g mode mvOnly shuf).2).y = g.y ∧
    ((validationGenerator shuffle g mode mvOnly shuf).2).beginEndIndices
      = g.beginEndIndices ∧
    ((validationGenerator shuffle g mode mvOnly shuf).2).manuallyVerified
      = g.manuallyVerified ∧
    ((validationGenerator shuffle g mode mvOnly shuf).2).trainAudioIndices.Perm
      g.trainAudioIndices ∧
    ((validationGenerator shuffle g mode mvOnly shuf).2).validationAudioIndices.Perm
      g.validationAudioIndices ∧
    (shuf = false ∨ mvOnly = true →
      ((validationGenerator shuffle g mode mvOnly shuf).2).trainAudioIndices
          = g.trainAudioIndices ∧
        ((validationGenerator shuffle g mode mvOnly shuf).2).validationAudioIndices
          = g.validationAudioIndices) ∧
    (shuf = true → mvOnly = false → mode = Mode.train →
      ((validationGenerator shuffle g mode mvOnly shuf).2).trainAudioIndices
        = (shuffle g.validationRng g.trainAudioIndices).1) ∧
    (shuf = true → mvOnly = false → mode = Mode.validation →
      ((validationGenerator shuffle g mode mvOnly shuf).2).validationAudioIndices
        = (shuffle g.validationRng g.validationAudioIndices).1) := by
  cases mode <;> cases mvOnly <;> cases shuf <;>
    refine ⟨rfl, rfl, rfl, rfl, rfl, rfl, ?_, ?_, ?_, ?_, ?_⟩ <;>
    first
      | exact List.Perm.refl _
      | exact hsh _ _
      | exact fun _ => ⟨rfl, rfl⟩
      | (intro h; rcases h with h | h <;> simp at h)
      | (intro h1; intro h2; intro h3; rfl)
      | (intro h1; intro h2; intro h3; exact Bool.noConfusion h1)
      | (intro h1; intro h2; intro h3; exact Bool.noConfusion h2)
      | (intro h1; intro h2; intro h3; exact Mode.noConfusion h3)

/-- Witness for C4_validation_generator_state: a reversing shuffle on a
concrete engine, `mode='train'`, `manually_verified_only=False`,
`shuffle=True`. -/
theorem C4_validation_generator_state_witness :
    (∀ (r : Unit) (l : List Nat),
      (((fun (r' : Unit) (l' : List Nat) => (l'.reverse, r')) r l).1).Perm l) ∧
    (((validationGenerator (fun (r' : Unit) (l' : List Nat) => (l'.reverse, r'))
        (⟨[0, 1], [2], [], [], [], [], 0, 1, 2, 0, ()⟩ : Engine Unit)
        Mode.train false true).2).x
      = (⟨[0, 1], [2], [], [], [], [], 0, 1, 2, 0, ()⟩ : Engine Unit).x ∧
    ((validationGenerator (fun (r' : Unit) (l' : List Nat) => (l'.reverse, r'))
        (⟨[0, 1], [2], [], [], [], [], 0, 1, 2, 0, ()⟩ : Engine Unit)
        Mode.train false true).2).mean
      = (⟨[0, 1], [2], [], [], [], [], 0, 1, 2, 0, ()⟩ : Engine Unit).mean ∧
    ((validationGenerator (fun (r' : Unit) (l' : List Nat) => (l'.reverse, r'))
        (⟨[0, 1], [2], [], [], [], [], 0, 1, 2, 0, ()⟩ : Engine Unit)
        Mode.train false true).2).std
      = (⟨[0, 1], [2], [], [], [], [], 0, 1, 2, 0, ()⟩ : Engine Unit).std ∧
    ((validationGenerator (fun (r' : Unit) (l' : List Nat) => (l'.reverse, r'))
        (⟨[0, 1], [2], [], [], [], [], 0, 1, 2, 0, ()⟩ : Engine Unit)
        Mode.train false true).2).y
      = (⟨[0, 1], [2], [], [], [], [], 0, 1, 2, 0, ()⟩ : Engine Unit).y ∧
    ((validationGenerator (fun (r' : Unit) (l' : List Nat) => (l'.reverse, r'))
        (⟨[0, 1], [2], [], [], [], [], 0, 1, 2, 0, ()⟩ : Engine Unit)
        Mode.train false true).2).beginEndIndices
      = (⟨[0, 1], [2], [], [], [], [], 0, 1, 2, 0, ()⟩ : Engine Unit).beginEndIndices ∧
    ((validationGenerator (fun (r' : Unit) (l' : List Nat) => (l'.reverse, r'))
        (⟨[0, 1], [2], [], [], [], [], 0, 1, 2, 0, ()⟩ : Engine Unit)
        Mode.train false true).2).manuallyVerified
      = (⟨[0, 1], [2], [], [], [], [], 0, 1, 2, 0, ()⟩ : Engine Unit).manuallyVerified ∧
    ((validationGenerator (fun (r' : Unit) (l' : List Nat) => (l'.reverse, r'))
        (⟨[0, 1], [2], [], [], [], [], 0, 1, 2, 0, ()⟩ : Engine Unit)
        Mode.train false true).2).trainAudioIndices.Perm
      (⟨[0, 1], [2], [], [], [], [], 0, 1, 2, 0, ()⟩ : Engine Unit).trainAudioIndices ∧
    ((validationGenerator (fun (r' : Unit) (l' : List Nat) => (l'.reverse, r'))
        (⟨[0, 1], [2], [], [], [], [], 0, 1, 2, 0, ()⟩ : Engine Unit)
        Mode.train false true).2).validationAudioIndices.Perm
      (⟨[0, 1], [2], [], [], [], [], 0, 1, 2, 0, ()⟩ : Engine Unit).validationAudioIndices ∧
    (true = false ∨ false = true →
      ((validationGenerator (fun (r' : Unit) (l' : List Nat) => (l'.reverse, r'))
          (⟨[0, 1], [2], [], [], [], [], 0, 1, 2, 0, ()⟩ : Engine Unit)
          Mode.train false true).2).trainAudioIndices
        = (⟨[0, 1], [2], [], [], [], [], 0, 1, 2, 0, ()⟩ : Engine Unit).trainAudioIndices ∧
      ((validationGenerator (fun (r' : Unit) (l' : List Nat) => (l'.reverse, r'))
          (⟨[0, 1], [2], [], [], [], [], 0, 1, 2, 0, ()⟩ : Engine Unit)
          Mode.train false true).2).validationAudioIndices
        = (⟨[0, 1], [2], [], [], [], [], 0, 1, 2, 0, ()⟩ : Engine Unit).validationAudioIndices) ∧
    (true = true → false = false → Mode.train = Mode.train →
      ((validationGenerator (fun (r' : Unit) (l' : List Nat) => (l'.reverse, r'))
          (⟨[0, 1], [2], [], [], [], [], 0, 1, 2, 0, ()⟩ : Engine Unit)
          Mode.train false true).2).trainAudioIndices
        = ((fun (r' : Unit) (l' : List Nat) => (l'.reverse, r'))
            (⟨[0, 1], [2], [], [], [], [], 0, 1, 2, 0, ()⟩ : Engine Unit).validationRng
            (⟨[0, 1], [2], [], [], [], [], 0, 1, 2, 0, ()⟩ : Engine Unit).trainAudioIndices).1) ∧
    (true = true → false = false → Mode.train = Mode.validation →
      ((validationGenerator (fun (r' : Unit) (l' : List Nat) => (l'.reverse, r'))
          (⟨[0, 1], [2], [], [], [], [], 0, 1, 2, 0, ()⟩ : Engine Unit)
          Mode.train false true).2).validationAudioIndices
        = ((fun (r' : Unit) (l' : List Nat) => (l'.reverse, r'))
            (⟨[0, 1], [2], [], [], [], [], 0, 1, 2, 0, ()⟩ : Engine Unit).validationRng
            (⟨[0, 1], [2], [], [], [], [], 0, 1, 2, 0, ()⟩ : Engine Unit).validationAudioIndices).1)) :=
  ⟨fun _ l => l.reverse_perm,
    C4_validation_generator_state
      (fun (r' : Unit) (l' : List Nat) => (l'.reverse, r'))
      (fun _ l => l.reverse_perm)
      (⟨[0, 1], [2], [], [], [], [], 0, 1, 2, 0, ()⟩ : Engine Unit)
      Mode.train false true⟩

theorem forall₂_mem_right {α β : Type} {R : α → β → Prop} :
    ∀ {l1 : List α} {l2 : List β}, List.Forall₂ R l1 l2 →
      ∀ b ∈ l2, ∃ a ∈ l1, R a b := by
  intro l1 l2 hall
  induction hall with
  | nil => intro b hb; cases hb
  | cons hab _ ih =>
    intro b hb
    rcases List.mem_cons.mp hb with hb | hb
    · exact ⟨_, List.mem_cons_self _ _, hb ▸ hab⟩
    · obtain ⟨a, ha, hr⟩ := ih b hb
      exact ⟨a, List.mem_cons_of_mem _ ha, hr⟩

theorem generate_chunks_wf {α : Type} (L b e n : Nat) (lbl : α) (hL : 2 ≤ L)
    (h1 : 1 ≤ e - b) (h2 : e ≤ n) :
    ∀ d ∈ generate_chunks L b e lbl, 1 ≤ d.2.1 - d.1 ∧ d.2.1 ≤ n := by
  intro d hd
  rw [generate_chunks] at hd
  by_cases hc : e - b ≤ L
  · rw [if_pos hc] at hd
    simp only [List.mem_singleton] at hd
    subst hd
    exact ⟨h1, h2⟩
  · rw [if_neg hc] at hd
    have hstep : 0 < L / 2 := by
      rw [Nat.lt_iff_add_one_le, Nat.le_div_iff_mul_le (by omega)]
      omega
    simp only [List.mem_map] at hd
    obtain ⟨s, hs, rfl⟩ := hd
    rw [mem_arange hstep] at hs
    obtain ⟨i, rfl, hlt⟩ := hs
    constructor
    · simp only
      omega
    · simp only
      omega

/-- The test-side data loaded by `read_test_data` (lines 208-231). -/
structure TestEngine where
  filenamesTest : List String
  xTest : List ℚ
  yTest : List Nat
  beginEndIndicesTest : List (Nat × Nat)

/-- Embedding of `DataGenerator.test_generator` (lines 234-251): every
test recording in table order (no shuffling, no limit), its full range
segmented, materialized as one batch and normalized with the training
`mean` and `std`. The chunk label passed is `None` (line 244) and the
label batch is discarded. -/
def testGenerator (L : Nat) (mean std : ℚ) (t : TestEngine) :
    List (Option (List (List ℚ)) × String × Nat) :=
  (List.range t.filenamesTest.length).map (fun aind =>
    let be := t.beginEndIndicesTest.getD aind (0, 0)
    let chunks := generate_chunks L be.1 be.2 (none : Option Nat)
    ((generate_xy_batches L t.xTest chunks).map
      (fun xy => xy.1.map (normalizeRow mean std)),
     t.filenamesTest.getD aind "", t.yTest.getD aind 0))

/-- Claim C6 (confirmed): the test generator yields one output per test
recording, in table order (the i-th output carries the i-th filename and
the i-th test label), without shuffling and without a limit, and every
yielded feature batch is normalized with the training mean and standard
deviation: for a test table in which every frame equals a constant `c`,
every yielded feature value equals `(c - mean) / std` for the training
`mean` and `std`. -/
theorem C6_test_generator_order_and_normalization (L : Nat) (mean std c : ℚ)
    (t : TestEngine) (hL : 2 ≤ L)
    (hlen : t.beginEndIndicesTest.length = t.filenamesTest.length)
    (hwf : ∀ be ∈ t.beginEndIndicesTest, 1 ≤ be.2 - be.1 ∧ be.2 ≤ t.xTest.length)
    (hc : ∀ v ∈ t.xTest, v = c) :
    (testGenerator L mean std t).length = t.filenamesTest.length ∧
    (∀ i, i < t.filenamesTest.length →
      ((testGenerator L mean std t).getD i (none, "", 0)).2
        = (t.filenamesTest.getD i "", t.yTest.getD i 0)) ∧
    (∀ o ∈ testGenerator L mean std t,
      ∃ xb, o.1 = some xb ∧ ∀ row ∈ xb, ∀ v ∈ row, v = (c - mean) / std) := by
  refine ⟨by simp [testGenerator], ?_, ?_⟩
  · intro i hi
    have hi' : i < ((List.range t.filenamesTest.length).map (fun aind =>
        ((generate_xy_batches L t.xTest
            (generate_chunks L (t.beginEndIndicesTest.getD aind (0, 0)).1
              (t.beginEndIndicesTest.getD aind (0, 0)).2 (none : Option Nat))).map
          (fun xy => xy.1.map (normalizeRow mean std)),
         t.filenamesTest.getD aind "", t.yTest.getD aind 0))).length := by
      simpa using hi
    rw [testGenerator, List.getD_eq_getElem _ _ hi', List.getElem_map,
      List.getElem_range]
  · intro o ho
    rw [testGenerator] at ho
    simp only [List.mem_map, List.mem_range] at ho
    obtain ⟨aind, haind, rfl⟩ := ho
    have hbe_mem : t.beginEndIndicesTest.getD aind (0, 0)
        ∈ t.beginEndIndicesTest := by
      have hbl : aind < t.beginEndIndicesTest.length := by omega
      rw [List.getD_eq_getElem _ _ hbl]
      exact List.getElem_mem hbl
    obtain ⟨hbe1, hbe2⟩ := hwf _ hbe_mem
    obtain ⟨xb0, yb0, hbat, -, -, hall⟩ :=
      generate_xy_batches_spec L t.xTest
        (generate_chunks L (t.beginEndIndicesTest.getD aind (0, 0)).1
          (t.beginEndIndicesTest.getD aind (0, 0)).2 (none : Option Nat))
        (generate_chunks_wf L _ _ _ _ hL hbe1 hbe2)
    refine ⟨xb0.map (normalizeRow mean std), ?_, ?_⟩
    · rw [hbat]
      rfl
    · intro row hrow v hv
      simp only [List.mem_map] at hrow
      obtain ⟨row0, hrow0, rfl⟩ := hrow
      simp only [normalizeRow, List.mem_map] at hv
      obtain ⟨w, hw, rfl⟩ := hv
      obtain ⟨d, -, hd⟩ := forall₂_mem_right hall row0 hrow0
      rw [hc w (generate_xy_row_values L t.xTest d.1 d.2.1 row0 hd w hw)]

/-- Witness for C6_test_generator_order_and_normalization: one constant
test recording of three frames equal to 3, training mean 1 and std 2. -/
theorem C6_test_generator_order_and_normalization_witness :
    (2 ≤ 2 ∧
      (⟨["f"], [3, 3, 3], [1], [(0, 3)]⟩ : TestEngine).beginEndIndicesTest.length
        = (⟨["f"], [3, 3, 3], [1], [(0, 3)]⟩ : TestEngine).filenamesTest.length ∧
      (∀ be ∈ (⟨["f"], [3, 3, 3], [1], [(0, 3)]⟩ : TestEngine).beginEndIndicesTest,
        1 ≤ be.2 - be.1 ∧
          be.2 ≤ (⟨["f"], [3, 3, 3], [1], [(0, 3)]⟩ : TestEngine).xTest.length) ∧
      (∀ v ∈ (⟨["f"], [3, 3, 3], [1], [(0, 3)]⟩ : TestEngine).xTest, v = (3 : ℚ))) ∧
    ((testGenerator 2 1 2 ⟨["f"], [3, 3, 3], [1], [(0, 3)]⟩).length
        = (⟨["f"], [3, 3, 3], [1], [(0, 3)]⟩ : TestEngine).filenamesTest.length ∧
      (∀ i, i < (⟨["f"], [3, 3, 3], [1], [(0, 3)]⟩ : TestEngine).filenamesTest.length →
        ((testGenerator 2 1 2 ⟨["f"], [3, 3, 3], [1], [(0, 3)]⟩).getD i (none, "", 0)).2
          = ((⟨["f"], [3, 3, 3], [1], [(0, 3)]⟩ : TestEngine).filenamesTest.getD i "",
             (⟨["f"], [3, 3, 3], [1], [(0, 3)]⟩ : TestEngine).yTest.getD i 0)) ∧
      (∀ o ∈ testGenerator 2 1 2 ⟨["f"], [3, 3, 3], [1], [(0, 3)]⟩,
        ∃ xb, o.1 = some xb ∧
          ∀ row ∈ xb, ∀ v ∈ row, v = ((3 : ℚ) - 1) / 2)) :=
  ⟨⟨by decide, by decide, by decide, by decide⟩,
    C6_test_generator_order_and_normalization 2 1 2 3
      ⟨["f"], [3, 3, 3], [1], [(0, 3)]⟩
      (by decide) (by decide) (by decide) (by decide)⟩

/-- Embedding of the fold-based split (lines 60-61): positions whose fold
differs from the holdout fold train, the rest validate. -/
def splitIndices (folds : List Nat) (holdout : Nat) : List Nat × List Nat :=
  ((List.range folds.length).filter (fun i => folds.getD i 0 ≠ holdout),
   (List.range folds.length).filter (fun i => folds.getD i 0 = holdout))

/-- Python true division of two integer lengths (line 75-76): raises
`ZeroDivisionError` on a zero denominator. -/
def ratioDiv (a b : Nat) : Except String ℚ :=
  if b = 0 then Except.error "ZeroDivisionError: division by zero"
  else Except.ok ((a : ℚ) / (b : ℚ))

/-- Embedding of the split-and-log portion of `DataGenerator.__init__`
(lines 56-76): resolve the train/validation index sets, then (only when
validation is requested) log the split ratio
`train_len / validation_len`, whose division fails when the validation
set is empty; the constructor propagates that failure before any
generator is handed to the caller. -/
def initSplit (validate : Bool) (filesNumber : Nat) (folds : List Nat)
    (holdout : Nat) : Except String (List Nat × List Nat) :=
  let tv := if validate then splitIndices folds holdout
    else (List.range filesNumber, ([] : List Nat))
  if validate then
    match ratioDiv tv.1.length tv.2.length with
    | Except.error msg => Except.error msg
    | Except.ok _ => Except.ok tv
  else Except.ok tv

/-- Claim C8 (confirmed): if validation splitting is requested but the
holdout fold matches no recording, the validation index set is empty and
construction fails (the ratio computation `train_len / validation_len`
divides by zero), before any generator is handed to the caller. -/
theorem C8_empty_holdout_fails (filesNumber : Nat) (folds : List Nat)
    (holdout : Nat) (h : ∀ f ∈ folds, f ≠ holdout) :
    initSplit true filesNumber folds holdout
      = Except.error "ZeroDivisionError: division by zero" := by
  have hempty : (splitIndices folds holdout).2 = [] := by
    rw [splitIndices]
    dsimp only
    rw [List.filter_eq_nil_iff]
    intro i hi
    rw [List.mem_range] at hi
    have hmem : folds.getD i 0 ∈ folds := by
      rw [List.getD_eq_getElem _ _ hi]
      exact List.getElem_mem hi
    simp only [decide_eq_true_eq]
    exact h _ hmem
  have key : initSplit true filesNumber folds holdout
      = match ratioDiv (splitIndices folds holdout).1.length
          ((splitIndices folds holdout).2).length with
        | Except.error msg => Except.error msg
        | Except.ok _ => Except.ok (splitIndices folds holdout) := rfl
  rw [key, hempty]
  rfl

/-- Witness for C8_empty_holdout_fails: folds `[1, 2]`, holdout fold 3. -/
theorem C8_empty_holdout_fails_witness :
    (∀ f ∈ ([1, 2] : List Nat), f ≠ 3) ∧
    initSplit true 2 [1, 2] 3
      = Except.error "ZeroDivisionError: division by zero" :=
  ⟨by decide, C8_empty_holdout_fails 2 [1, 2] 3 (by decide)⟩

/-- Embedding of line 42: `self.labels = sorted({s.decode() for s in
labels})` — the lexicographically sorted list of the distinct training
label strings. -/
def labelsSorted (ls : List String) : List String :=
  ls.dedup.insertionSort (· ≤ ·)

/-- Embedding of lines 44 and 47: `label_index_dict` sends a label string
to its position in the sorted vocabulary, and `y` maps every training
label through it. -/
def yLabels (vocab : List String) (ls : List String) : List Nat :=
  ls.map (fun s => vocab.indexOf s)

/-- Embedding of line 226: `y_test` looks every test label up in
`label_index_dict`; a label absent from the training vocabulary raises
`KeyError`, embedded as `none`. -/
def yTestLabels (vocab : List String) : List String → Option (List Nat)
  | [] => some []
  | s :: rest =>
    match (if s ∈ vocab then some (vocab.indexOf s) else none),
        yTestLabels vocab rest with
    | some i, some l => some (i :: l)
    | _, _ => none

theorem yTestLabels_isSome_iff (vocab : List String) :
    ∀ ls, (yTestLabels vocab ls).isSome ↔ ∀ s ∈ ls, s ∈ vocab := by
  intro ls
  induction ls with
  | nil => simp [yTestLabels]
  | cons s rest ih =>
    by_cases hs : s ∈ vocab
    · rcases hrest : yTestLabels vocab rest with - | l
      · rw [hrest] at ih
        simp only [yTestLabels, if_pos hs, hrest]
        simp only [Option.isSome_none, Bool.false_eq_true, false_iff] at ih ⊢
        intro hall
        exact ih (fun s' hs' => hall s' (List.mem_cons_of_mem _ hs'))
      · rw [hrest] at ih
        simp only [yTestLabels, if_pos hs, hrest]
        simp only [Option.isSome_some, true_iff] at ih
        simp only [Option.isSome_some, true_iff, List.mem_cons]
        rintro s' (rfl | hs')
        · exact hs
        · exact ih s' hs'
    · simp only [yTestLabels, if_neg hs]
      constructor
      · intro hcontra
        simp at hcontra
      · intro hall
        exact absurd (hall s (List.mem_cons_self _ _)) hs

theorem yTestLabels_entries (vocab : List String) :
    ∀ ls l, yTestLabels vocab ls = some l → ∀ e ∈ l, e < vocab.length := by
  intro ls
  induction ls with
  | nil =>
    intro l hl e he
    simp only [yTestLabels] at hl
    cases hl
    cases he
  | cons s rest ih =>
    intro l hl e he
    by_cases hs : s ∈ vocab
    · simp only [yTestLabels, if_pos hs] at hl
      rcases hrest : yTestLabels vocab rest with - | l'
      · rw [hrest] at hl
        cases hl
      · rw [hrest] at hl
        cases hl
        rcases List.mem_cons.mp he with rfl | he'
        · exact List.indexOf_lt_length.mpr hs
        · exact ih l' hrest e he'
    · simp only [yTestLabels, if_neg hs] at hl
      cases hl

/-- Claim C10 (confirmed): the label vocabulary is the lexicographically
sorted list of the distinct training label strings; the label-to-index
mapping sends the i-th sorted label to index i (a bijection onto
`[0, number of distinct training labels)`); every entry of the training
label array `y` lies in that range; and the test label array `y_test` is
defined exactly when every test label string occurs in the training
vocabulary, in which case its entries lie in the same range. -/
theorem C10_label_vocabulary (labels labelsTest : List String) :
    (labelsSorted labels).Sorted (· ≤ ·) ∧
    (labelsSorted labels).Nodup ∧
    (∀ s, s ∈ labelsSorted labels ↔ s ∈ labels) ∧
    (∀ i (h : i < (labelsSorted labels).length),
      (labelsSorted labels).indexOf ((labelsSorted labels).get ⟨i, h⟩) = i) ∧
    (∀ e ∈ yLabels (labelsSorted labels) labels,
      e < (labelsSorted labels).length) ∧
    ((yTestLabels (labelsSorted labels) labelsTest).isSome ↔
      ∀ s ∈ labelsTest, s ∈ labelsSorted labels) ∧
    (∀ l, yTestLabels (labelsSorted labels) labelsTest = some l →
      ∀ e ∈ l, e < (labelsSorted labels).length) := by
  have hnd : (labelsSorted labels).Nodup :=
    (List.perm_insertionSort (· ≤ ·) labels.dedup).symm.nodup
      (List.nodup_dedup labels)
  have hmem : ∀ s, s ∈ labelsSorted labels ↔ s ∈ labels := by
    intro s
    rw [labelsSorted, List.mem_insertionSort, List.mem_dedup]
  refine ⟨List.sorted_insertionSort (· ≤ ·) labels.dedup, hnd, hmem, ?_, ?_,
    yTestLabels_isSome_iff _ _, yTestLabels_entries _ _⟩
  · intro i h
    exact List.get_indexOf hnd ⟨i, h⟩
  · intro e he
    simp only [yLabels, List.mem_map] at he
    obtain ⟨s, hs, rfl⟩ := he
    exact List.indexOf_lt_length.mpr ((hmem s).mpr hs)

/-- Witness for C10_label_vocabulary at the concrete label lists
`["b", "a", "b"]` (training) and `["a"]` (test). -/
theorem C10_label_vocabulary_witness :
    (labelsSorted ["b", "a", "b"]).Sorted (· ≤ ·) ∧
    (labelsSorted ["b", "a", "b"]).Nodup ∧
    (∀ s, s ∈ labelsSorted ["b", "a", "b"] ↔ s ∈ (["b", "a", "b"] : List String)) ∧
    (∀ i (h : i < (labelsSorted ["b", "a", "b"]).length),
      (labelsSorted ["b", "a", "b"]).indexOf
        ((labelsSorted ["b", "a", "b"]).get ⟨i, h⟩) = i) ∧
    (∀ e ∈ yLabels (labelsSorted ["b", "a", "b"]) ["b", "a", "b"],
      e < (labelsSorted ["b", "a", "b"]).length) ∧
    ((yTestLabels (labelsSorted ["b", "a", "b"]) ["a"]).isSome ↔
      ∀ s ∈ (["a"] : List String), s ∈ labelsSorted ["b", "a", "b"]) ∧
    (∀ l, yTestLabels (labelsSorted ["b", "a", "b"]) ["a"] = some l →
      ∀ e ∈ l, e < (labelsSorted ["b", "a", "b"]).length) :=
  C10_label_vocabulary ["b", "a", "b"] ["a"]

end DataGen
